import Mathlib

set_option maxHeartbeats 1000000

/-!
Shallow embedding of `ProjectTwo_Code.cpp` (ABCU Advising Assistance Program).

The program is a single C++ file: string helpers (`trimCopy`, `toUpperInPlace`,
`splitCSV`), an unbalanced binary search tree `CourseBST` keyed by course
number, and a `CoursePlanner` that loads rows from a file and answers the two
queries `printCourseList` and `printCourseInfo`.  File input is modelled as
`Option (List String)`: `none` stands for a file that cannot be opened, and
`some lines` for the sequence of lines read by `std::getline`.  Console output
is modelled by the returned result values (`LoadResult`, `ListResult`,
`DescribeResult`) and the list of warning line numbers written to `cerr`.
-/

/-- C `isspace` in the default locale: space, `\t`, `\n`, `\v`, `\f`, `\r`. -/
def isCSpace (c : Char) : Bool :=
  c = ' ' || c = '\t' || c = '\n' || c = '\x0b' || c = '\x0c' || c = '\r'

/-- `trimCopy`: drop leading whitespace, then trailing whitespace. -/
def trimCopy (s : String) : String :=
  String.mk (((s.data.dropWhile isCSpace).reverse.dropWhile isCSpace).reverse)

/-- `std::toupper` on one character (ASCII range, C locale). -/
def toUpperChar (c : Char) : Char :=
  if 'a' ≤ c && c ≤ 'z' then Char.ofNat (c.toNat - 32) else c

/-- `toUpperInPlace`, as a pure function on strings. -/
def toUpperStr (s : String) : String :=
  String.mk (s.data.map toUpperChar)

/-- The `std::getline(iss, cur, ',')` loop of `splitCSV`: reads characters into
the pending field `acc`; a comma ends the field; end of input ends the field
only when at least one character (or a delimiter-terminated empty field) was
pending, matching `getline` failing on an immediate end of stream. -/
def splitCSVAux : List Char → List Char → List String
  | [], acc => if acc = [] then [] else [String.mk acc]
  | c :: rest, acc =>
    if c = ',' then String.mk acc :: splitCSVAux rest []
    else splitCSVAux rest (acc ++ [c])

/-- `splitCSV`: split on commas, trimming every part. -/
def splitCSV (line : String) : List String :=
  (splitCSVAux line.data []).map trimCopy

/-- `std::string` `operator<`: lexicographic comparison of the underlying
character sequences. -/
def strLt (s t : String) : Prop := s.data < t.data

instance strLt.decidable (s t : String) : Decidable (strLt s t) :=
  inferInstanceAs (Decidable (s.data < t.data))

/-- `strLt` agrees with the order on `String`. -/
theorem strLt_iff {s t : String} : strLt s t ↔ s < t :=
  String.lt_iff_toList_lt.symm

/-- `struct Course`. -/
structure Course where
  number : String
  title : String
  prereqs : List String
  deriving DecidableEq, Repr

/-- The node structure of `CourseBST` (`struct Node` with left/right children). -/
inductive CourseBST where
  | leaf : CourseBST
  | node : CourseBST → Course → CourseBST → CourseBST
  deriving DecidableEq, Repr

/-- `CourseBST::insertOrAssignImpl`: standard BST insert; on an equal key the
existing node keeps its `number` and receives the new `title`/`prereqs`. -/
def CourseBST.insertOrAssign : CourseBST → Course → CourseBST
  | .leaf, c => .node .leaf c .leaf
  | .node l x r, c =>
    if strLt c.number x.number then .node (CourseBST.insertOrAssign l c) x r
    else if strLt x.number c.number then .node l x (CourseBST.insertOrAssign r c)
    else .node l { x with title := c.title, prereqs := c.prereqs } r

/-- `CourseBST::find`: iterative BST search (equality tested first). -/
def CourseBST.find : CourseBST → String → Option Course
  | .leaf, _ => none
  | .node l x r, number =>
    if number = x.number then some x
    else if strLt number x.number then CourseBST.find l number
    else CourseBST.find r number

/-- `CourseBST::inOrderImpl`: left subtree, node, right subtree.  The list of
visited courses stands for the sequence of callback invocations. -/
def CourseBST.inorder : CourseBST → List Course
  | .leaf => []
  | .node l x r => CourseBST.inorder l ++ x :: CourseBST.inorder r

/-- Number of nodes; `CourseBST::size` maintains this count in `count_`
(incremented exactly when a new node is allocated, reset by `clearAll`). -/
def CourseBST.size : CourseBST → Nat
  | .leaf => 0
  | .node l _ r => CourseBST.size l + 1 + CourseBST.size r

/-- The course numbers in traversal order. -/
def CourseBST.keys (t : CourseBST) : List String := t.inorder.map Course.number

/-- The state of `CoursePlanner`: the BST, the secondary title index
(`std::unordered_map<std::string, std::string>`, modelled as an association
list observed only through `indexFind`), the `loaded_` flag and
`lastFilename_`. -/
structure Planner where
  tree : CourseBST
  index : List (String × String)
  loaded : Bool
  lastFilename : String
  deriving DecidableEq, Repr

/-- A default-constructed `CoursePlanner`: empty tree, empty index,
`loaded_ = false`, empty filename. -/
def initPlanner : Planner := ⟨CourseBST.leaf, [], false, ""⟩

/-- `index_[k] = v` on the hash map: replace the value at `k` if present,
otherwise add the binding. -/
def indexInsert : List (String × String) → String → String → List (String × String)
  | [], k, v => [(k, v)]
  | (k', v') :: rest, k, v =>
    if k' = k then (k, v) :: rest else (k', v') :: indexInsert rest k v

/-- `index_.find(k)`: the value bound to `k`, if any. -/
def indexFind : List (String × String) → String → Option String
  | [], _ => none
  | (k', v') :: rest, k => if k' = k then some v' else indexFind rest k

/-- Classification of one input line inside the load loop. -/
inductive RowParse where
  | blank
  | malformed
  | course (c : Course)
  deriving DecidableEq, Repr

/-- The per-line logic of `CoursePlanner::loadFromFile`: trim the line (blank
lines are ignored), split it, require at least number and title, uppercase the
number, and collect the uppercased non-empty remaining fields as prereqs. -/
def parseRow (line : String) : RowParse :=
  let trimmed := trimCopy line
  if trimmed = "" then .blank
  else
    let parts := splitCSV trimmed
    if parts.length < 2 then .malformed
    else .course
      { number := toUpperStr (parts.getD 0 "")
        title := parts.getD 1 ""
        prereqs := ((parts.drop 2).map toUpperStr).filter (fun s => decide (s ≠ "")) }

/-- Loop state of `loadFromFile`: the planner being filled, `lineNum`,
`loaded`, `skipped`, and the line numbers of the warnings printed so far. -/
structure RunSt where
  planner : Planner
  lineNum : Nat
  loadedCount : Nat
  skippedCount : Nat
  warnings : List Nat
  deriving DecidableEq, Repr

/-- `tree_.insertOrAssign(c); index_[c.number] = c.title;` -/
def insertCourse (p : Planner) (c : Course) : Planner :=
  { p with tree := p.tree.insertOrAssign c
           index := indexInsert p.index c.number c.title }

/-- One iteration of the `while (std::getline(in, line))` loop. -/
def stepRow (st : RunSt) (line : String) : RunSt :=
  let n := st.lineNum + 1
  match parseRow line with
  | .blank => { st with lineNum := n }
  | .malformed =>
      { st with lineNum := n
                skippedCount := st.skippedCount + 1
                warnings := st.warnings ++ [n] }
  | .course c =>
      { st with lineNum := n
                planner := insertCourse st.planner c
                loadedCount := st.loadedCount + 1 }

/-- Outcome of `loadFromFile` as seen by the caller. -/
inductive LoadResult where
  | ok (loadedCount skippedCount : Nat)
  | couldNotOpen
  | noValidRecords
  deriving DecidableEq, Repr

/-- Whether the load returned `true`. -/
def LoadResult.isOk : LoadResult → Bool
  | .ok _ _ => true
  | _ => false

/-- Result of one `loadFromFile` call: the planner state after the call, the
returned result, and the warning line numbers written to `cerr`. -/
structure LoadOutcome where
  planner : Planner
  result : LoadResult
  warnings : List Nat
  deriving DecidableEq, Repr

/-- `CoursePlanner::loadFromFile`.  If the file cannot be opened (`none`), the
function returns before touching any state.  Otherwise the tree and index are
cleared, every line is processed, and the call fails when zero courses were
loaded; `loaded_` is set only on success (never reset on failure). -/
def loadFromFile (p : Planner) (filename : String) (file : Option (List String)) :
    LoadOutcome :=
  match file with
  | none => ⟨p, .couldNotOpen, []⟩
  | some lines =>
    let st0 : RunSt := ⟨{ p with tree := CourseBST.leaf, index := [] }, 0, 0, 0, []⟩
    let st := lines.foldl stepRow st0
    if st.loadedCount = 0 then ⟨st.planner, .noValidRecords, st.warnings⟩
    else ⟨{ st.planner with loaded := true, lastFilename := filename },
          .ok st.loadedCount st.skippedCount, st.warnings⟩

/-- Result of `printCourseList`: the not-loaded message, or the printed
`(number, title)` lines together with the printed total. -/
inductive ListResult where
  | notLoaded
  | ok (entries : List (String × String)) (total : Nat)
  deriving DecidableEq, Repr

/-- `CoursePlanner::printCourseList`. -/
def printCourseList (p : Planner) : ListResult :=
  if p.loaded = false then .notLoaded
  else
    let entries := p.tree.inorder.map (fun c => (c.number, c.title))
    .ok entries entries.length

/-- One printed prerequisite line: resolved through the index, or flagged as
"title not found in file". -/
inductive PrereqLine where
  | resolved (number title : String)
  | unresolved (number : String)
  deriving DecidableEq, Repr

/-- The course number a prerequisite line is about. -/
def PrereqLine.num : PrereqLine → String
  | .resolved n _ => n
  | .unresolved n => n

/-- Result of `printCourseInfo`.  In `found`, `prereqLines = none` models the
explicit "Prerequisites: None" message of a course with no prereqs; `some ls`
models the printed per-prerequisite lines. -/
inductive DescribeResult where
  | notLoaded
  | emptyQueryKey
  | notFound (number : String)
  | found (number title : String) (prereqLines : Option (List PrereqLine))
  deriving DecidableEq, Repr

/-- The body of the prerequisite loop in `printCourseInfo`. -/
def resolveLine (idx : List (String × String)) (p : String) : PrereqLine :=
  match indexFind idx p with
  | some t => .resolved p t
  | none => .unresolved p

/-- `CoursePlanner::printCourseInfo`: loaded check, then trim + uppercase,
then empty check, then BST lookup, then prerequisite resolution. -/
def printCourseInfo (p : Planner) (rawNumber : String) : DescribeResult :=
  if p.loaded = false then .notLoaded
  else
    let number := toUpperStr (trimCopy rawNumber)
    if number = "" then .emptyQueryKey
    else
      match p.tree.find number with
      | none => .notFound number
      | some c =>
        if c.prereqs = [] then .found c.number c.title none
        else .found c.number c.title (some (c.prereqs.map (resolveLine p.index)))

/-- The course a line contributes, if it is a valid row. -/
def courseOf (line : String) : Option Course :=
  match parseRow line with
  | .course c => some c
  | _ => none

/-- The courses contributed by a sequence of lines, in order. -/
def coursesOf (lines : List String) : List Course := lines.filterMap courseOf

/-- Whether a line is non-blank but has fewer than two fields. -/
def isMalformedRow (line : String) : Bool :=
  match parseRow line with
  | .malformed => true
  | _ => false

/-- Whether a line is a valid course row. -/
def isCourseRow (line : String) : Bool :=
  match parseRow line with
  | .course _ => true
  | _ => false

/-- Whether a line is blank after trimming. -/
def isBlankRow (line : String) : Bool :=
  match parseRow line with
  | .blank => true
  | _ => false

/-! ### Order facts about `strLt` -/

theorem strLt_irrefl (a : String) : ¬ strLt a a := by
  rw [strLt_iff]; exact lt_irrefl a

theorem strLt_asymm {a b : String} (h : strLt a b) : ¬ strLt b a := by
  rw [strLt_iff] at h ⊢; exact not_lt_of_lt h

theorem strLt_trans {a b c : String} (h1 : strLt a b) (h2 : strLt b c) : strLt a c := by
  rw [strLt_iff] at h1 h2 ⊢; exact lt_trans h1 h2

theorem eq_of_not_strLt {a b : String} (h1 : ¬ strLt a b) (h2 : ¬ strLt b a) : a = b := by
  rw [strLt_iff] at h1 h2
  exact le_antisymm (not_lt.mp h2) (not_lt.mp h1)

theorem strLt_ne {a b : String} (h : strLt a b) : a ≠ b := by
  intro he; subst he; exact strLt_irrefl a h

/-! ### The BST ordering invariant -/

/-- BST ordering invariant: at every node, all keys in the left subtree are
smaller and all keys in the right subtree are larger. -/
inductive BSTInv : CourseBST → Prop where
  | leaf : BSTInv .leaf
  | node {l r : CourseBST} {x : Course} :
      BSTInv l → BSTInv r →
      (∀ c ∈ l.inorder, strLt c.number x.number) →
      (∀ c ∈ r.inorder, strLt x.number c.number) →
      BSTInv (.node l x r)

theorem CourseBST.mem_inorder_insertOrAssign {t : CourseBST} {c c' : Course}
    (h : c' ∈ (t.insertOrAssign c).inorder) : c' ∈ t.inorder ∨ c' = c := by
  induction t with
  | leaf =>
    simp only [CourseBST.insertOrAssign, CourseBST.inorder, List.nil_append,
      List.mem_singleton] at h
    exact Or.inr h
  | node l x r ihl ihr =>
    by_cases h1 : strLt c.number x.number
    · simp only [CourseBST.insertOrAssign, if_pos h1, CourseBST.inorder, List.mem_append,
        List.mem_cons] at h
      simp only [CourseBST.inorder, List.mem_append, List.mem_cons]
      rcases h with h | h | h
      · rcases ihl h with h' | h'
        · exact Or.inl (Or.inl h')
        · exact Or.inr h'
      · exact Or.inl (Or.inr (Or.inl h))
      · exact Or.inl (Or.inr (Or.inr h))
    · by_cases h2 : strLt x.number c.number
      · simp only [CourseBST.insertOrAssign, if_neg h1, if_pos h2, CourseBST.inorder,
          List.mem_append, List.mem_cons] at h
        simp only [CourseBST.inorder, List.mem_append, List.mem_cons]
        rcases h with h | h | h
        · exact Or.inl (Or.inl h)
        · exact Or.inl (Or.inr (Or.inl h))
        · rcases ihr h with h' | h'
          · exact Or.inl (Or.inr (Or.inr h'))
          · exact Or.inr h'
      · have he : c.number = x.number := eq_of_not_strLt h1 h2
        simp only [CourseBST.insertOrAssign, if_neg h1, if_neg h2, CourseBST.inorder,
          List.mem_append, List.mem_cons] at h
        simp only [CourseBST.inorder, List.mem_append, List.mem_cons]
        rcases h with h | h | h
        · exact Or.inl (Or.inl h)
        · refine Or.inr ?_
          rw [h]
          obtain ⟨cn, ct, cp⟩ := c
          obtain ⟨xn, xt, xp⟩ := x
          have he' : cn = xn := he
          subst he'
          rfl
        · exact Or.inl (Or.inr (Or.inr h))

theorem CourseBST.insertOrAssign_bound (P : String → Prop) {t : CourseBST} {c : Course}
    (ht : ∀ y ∈ t.inorder, P y.number) (hc : P c.number) :
    ∀ y ∈ (t.insertOrAssign c).inorder, P y.number := by
  intro y hy
  rcases CourseBST.mem_inorder_insertOrAssign hy with h | h
  · exact ht y h
  · rw [h]; exact hc

theorem BSTInv.insertOrAssign {t : CourseBST} (hinv : BSTInv t) (c : Course) :
    BSTInv (t.insertOrAssign c) := by
  induction hinv with
  | leaf =>
    show BSTInv (.node .leaf c .leaf)
    exact .node .leaf .leaf (by simp [CourseBST.inorder]) (by simp [CourseBST.inorder])
  | @node l r x hl hr bl br ihl ihr =>
    by_cases h1 : strLt c.number x.number
    · rw [show (CourseBST.node l x r).insertOrAssign c
          = .node (l.insertOrAssign c) x r by simp [CourseBST.insertOrAssign, h1]]
      exact .node ihl hr (CourseBST.insertOrAssign_bound (fun k => strLt k x.number) bl h1) br
    · by_cases h2 : strLt x.number c.number
      · rw [show (CourseBST.node l x r).insertOrAssign c
            = .node l x (r.insertOrAssign c) by simp [CourseBST.insertOrAssign, h1, h2]]
        exact .node hl ihr bl (CourseBST.insertOrAssign_bound (strLt x.number) br h2)
      · rw [show (CourseBST.node l x r).insertOrAssign c
            = .node l { x with title := c.title, prereqs := c.prereqs } r by
              simp [CourseBST.insertOrAssign, h1, h2]]
        exact .node hl hr bl br

theorem BSTInv.keys_pairwise {t : CourseBST} (h : BSTInv t) :
    t.keys.Pairwise strLt := by
  induction h with
  | leaf => simp [CourseBST.keys, CourseBST.inorder]
  | @node l r x hl hr bl br ihl ihr =>
    simp only [CourseBST.keys, CourseBST.inorder, List.map_append, List.map_cons] at ihl ihr ⊢
    rw [List.pairwise_append]
    refine ⟨ihl, ?_, ?_⟩
    · rw [List.pairwise_cons]
      constructor
      · intro b hb
        obtain ⟨z, hz, rfl⟩ := List.mem_map.mp hb
        exact br z hz
      · exact ihr
    · intro a ha b hb
      obtain ⟨y, hy, rfl⟩ := List.mem_map.mp ha
      rcases List.mem_cons.mp hb with rfl | hb
      · exact bl y hy
      · obtain ⟨z, hz, rfl⟩ := List.mem_map.mp hb
        exact strLt_trans (bl y hy) (br z hz)


/-! ### `find` lemmas -/

theorem CourseBST.find_eq_some {t : CourseBST} {k : String} {c : Course}
    (h : t.find k = some c) : c ∈ t.inorder ∧ c.number = k := by
  induction t with
  | leaf => simp [CourseBST.find] at h
  | node l x r ihl ihr =>
    by_cases h1 : k = x.number
    · simp only [CourseBST.find, if_pos h1, Option.some.injEq] at h
      subst h
      exact ⟨by simp [CourseBST.inorder], h1.symm⟩
    · by_cases h2 : strLt k x.number
      · simp only [CourseBST.find, if_neg h1, if_pos h2] at h
        obtain ⟨hm, hk⟩ := ihl h
        exact ⟨by simp [CourseBST.inorder, hm], hk⟩
      · simp only [CourseBST.find, if_neg h1, if_neg h2] at h
        obtain ⟨hm, hk⟩ := ihr h
        exact ⟨by simp [CourseBST.inorder, hm], hk⟩

theorem BSTInv.find_of_mem {t : CourseBST} (hinv : BSTInv t) {c : Course}
    (h : c ∈ t.inorder) : t.find c.number = some c := by
  induction hinv with
  | leaf => simp [CourseBST.inorder] at h
  | @node l r x hl hr bl br ihl ihr =>
    simp only [CourseBST.inorder, List.mem_append, List.mem_cons] at h
    rcases h with h | h | h
    · have hlt := bl c h
      have hne : c.number ≠ x.number := strLt_ne hlt
      simp [CourseBST.find, hne, hlt, ihl h]
    · subst h
      simp [CourseBST.find]
    · have hgt := br c h
      have hne : c.number ≠ x.number := fun he => (strLt_ne hgt) he.symm
      have hnlt : ¬ strLt c.number x.number := strLt_asymm hgt
      simp [CourseBST.find, hne, hnlt, ihr h]

theorem CourseBST.find_insertOrAssign_self (t : CourseBST) (c : Course) :
    (t.insertOrAssign c).find c.number = some c := by
  induction t with
  | leaf => simp [CourseBST.insertOrAssign, CourseBST.find]
  | node l x r ihl ihr =>
    by_cases h1 : strLt c.number x.number
    · have hne : c.number ≠ x.number := strLt_ne h1
      simp [CourseBST.insertOrAssign, h1, CourseBST.find, hne, ihl]
    · by_cases h2 : strLt x.number c.number
      · have hne : c.number ≠ x.number := fun he => (strLt_ne h2) he.symm
        simp [CourseBST.insertOrAssign, h1, h2, CourseBST.find, hne, ihr]
      · have he : c.number = x.number := eq_of_not_strLt h1 h2
        simp only [CourseBST.insertOrAssign, if_neg h1, if_neg h2, CourseBST.find]
        obtain ⟨cn, ct, cp⟩ := c
        obtain ⟨xn, xt, xp⟩ := x
        have he' : cn = xn := he
        subst he'
        simp

theorem CourseBST.find_insertOrAssign_ne (t : CourseBST) (c : Course) {k : String}
    (hk : k ≠ c.number) : (t.insertOrAssign c).find k = t.find k := by
  induction t with
  | leaf => simp [CourseBST.insertOrAssign, CourseBST.find, hk]
  | node l x r ihl ihr =>
    by_cases h1 : strLt c.number x.number
    · simp only [CourseBST.insertOrAssign, if_pos h1, CourseBST.find, ihl]
    · by_cases h2 : strLt x.number c.number
      · simp only [CourseBST.insertOrAssign, if_neg h1, if_pos h2, CourseBST.find, ihr]
      · have he : c.number = x.number := eq_of_not_strLt h1 h2
        have hkx : k ≠ x.number := he ▸ hk
        simp only [CourseBST.insertOrAssign, if_neg h1, if_neg h2, CourseBST.find]
        simp only [show ({ x with title := c.title, prereqs := c.prereqs } : Course).number
            = x.number from rfl, if_neg hkx]

/-! ### `size` lemmas -/

theorem CourseBST.size_insertOrAssign_of_found {t : CourseBST} {c : Course}
    (h : (t.find c.number).isSome = true) :
    (t.insertOrAssign c).size = t.size := by
  induction t with
  | leaf => simp [CourseBST.find] at h
  | node l x r ihl ihr =>
    by_cases h1 : strLt c.number x.number
    · have hne : c.number ≠ x.number := strLt_ne h1
      simp only [CourseBST.find, if_neg hne, if_pos h1] at h
      simp [CourseBST.insertOrAssign, h1, CourseBST.size, ihl h]
    · by_cases h2 : strLt x.number c.number
      · have hne : c.number ≠ x.number := fun he => (strLt_ne h2) he.symm
        simp only [CourseBST.find, if_neg hne, if_neg h1] at h
        simp [CourseBST.insertOrAssign, h1, h2, CourseBST.size, ihr h]
      · simp [CourseBST.insertOrAssign, h1, h2, CourseBST.size]

theorem CourseBST.size_insertOrAssign_of_new {t : CourseBST} {c : Course}
    (h : t.find c.number = none) :
    (t.insertOrAssign c).size = t.size + 1 := by
  induction t with
  | leaf => simp [CourseBST.insertOrAssign, CourseBST.size]
  | node l x r ihl ihr =>
    by_cases h1 : strLt c.number x.number
    · have hne : c.number ≠ x.number := strLt_ne h1
      simp only [CourseBST.find, if_neg hne, if_pos h1] at h
      simp only [CourseBST.insertOrAssign, if_pos h1, CourseBST.size, ihl h]
      omega
    · by_cases h2 : strLt x.number c.number
      · have hne : c.number ≠ x.number := fun he => (strLt_ne h2) he.symm
        simp only [CourseBST.find, if_neg hne, if_neg h1] at h
        simp only [CourseBST.insertOrAssign, if_neg h1, if_pos h2, CourseBST.size, ihr h]
        omega
      · have he : c.number = x.number := eq_of_not_strLt h1 h2
        simp [CourseBST.find, he] at h

theorem CourseBST.size_insertOrAssign_le (t : CourseBST) (c : Course) :
    (t.insertOrAssign c).size ≤ t.size + 1 := by
  rcases hf : t.find c.number with _ | c0
  · rw [CourseBST.size_insertOrAssign_of_new hf]
  · rw [CourseBST.size_insertOrAssign_of_found (by rw [hf]; rfl)]
    omega

/-! ### Index lemmas -/

theorem indexFind_indexInsert_self (idx : List (String × String)) (k v : String) :
    indexFind (indexInsert idx k v) k = some v := by
  induction idx with
  | nil => simp [indexInsert, indexFind]
  | cons kv rest ih =>
    obtain ⟨k', v'⟩ := kv
    by_cases h : k' = k
    · simp [indexInsert, h, indexFind]
    · simp [indexInsert, h, indexFind, ih]

theorem indexFind_indexInsert_ne (idx : List (String × String)) {k k0 : String} (v : String)
    (h : k0 ≠ k) : indexFind (indexInsert idx k v) k0 = indexFind idx k0 := by
  have h' : k ≠ k0 := fun he => h he.symm
  induction idx with
  | nil => simp [indexInsert, indexFind, h']
  | cons kv rest ih =>
    obtain ⟨k1, v1⟩ := kv
    by_cases hk : k1 = k
    · subst hk
      simp [indexInsert, indexFind, h']
    · simp [indexInsert, hk, indexFind, ih]

/-! ### Unfolding the load loop -/

theorem coursesOf_nil : coursesOf [] = [] := rfl

theorem coursesOf_cons (line : String) (rest : List String) :
    coursesOf (line :: rest) =
      (match parseRow line with
       | .course c => c :: coursesOf rest
       | _ => coursesOf rest) := by
  rcases hp : parseRow line with _ | _ | c <;>
    simp [coursesOf, courseOf, List.filterMap_cons, hp]

theorem foldl_stepRow_planner (lines : List String) (st : RunSt) :
    (lines.foldl stepRow st).planner = (coursesOf lines).foldl insertCourse st.planner := by
  induction lines generalizing st with
  | nil => rfl
  | cons line rest ih =>
    rw [List.foldl_cons, coursesOf_cons]
    rcases hp : parseRow line with _ | _ | c <;>
      simp only [stepRow, hp, ih, List.foldl_cons]

theorem foldl_stepRow_loadedCount (lines : List String) (st : RunSt) :
    (lines.foldl stepRow st).loadedCount = st.loadedCount + lines.countP isCourseRow := by
  induction lines generalizing st with
  | nil => simp [List.countP_nil]
  | cons line rest ih =>
    rw [List.foldl_cons, List.countP_cons]
    rcases hp : parseRow line with _ | _ | c <;>
      simp [stepRow, hp, ih, isCourseRow] <;> omega

theorem foldl_stepRow_skippedCount (lines : List String) (st : RunSt) :
    (lines.foldl stepRow st).skippedCount = st.skippedCount + lines.countP isMalformedRow := by
  induction lines generalizing st with
  | nil => simp [List.countP_nil]
  | cons line rest ih =>
    rw [List.foldl_cons, List.countP_cons]
    rcases hp : parseRow line with _ | _ | c <;>
      simp [stepRow, hp, ih, isMalformedRow] <;> omega

theorem foldl_stepRow_lineNum (lines : List String) (st : RunSt) :
    (lines.foldl stepRow st).lineNum = st.lineNum + lines.length := by
  induction lines generalizing st with
  | nil => simp
  | cons line rest ih =>
    rw [List.foldl_cons]
    rcases hp : parseRow line with _ | _ | c <;>
      simp [stepRow, hp, ih] <;> omega

theorem foldl_stepRow_warnings (lines : List String) (st : RunSt) :
    (lines.foldl stepRow st).warnings = st.warnings ++
      ((List.enumFrom st.lineNum lines).filter (fun q => isMalformedRow q.2)).map
        (fun q => q.1 + 1) := by
  induction lines generalizing st with
  | nil => simp
  | cons line rest ih =>
    rw [List.foldl_cons, List.enumFrom_cons, List.filter_cons]
    rcases hp : parseRow line with _ | _ | c
    · simp only [stepRow, hp, ih, isMalformedRow, Bool.false_eq_true, if_neg]
      simp [hp, isMalformedRow]
    · simp only [stepRow, hp, ih]
      simp [hp, isMalformedRow, List.append_assoc]
    · simp only [stepRow, hp, ih, isMalformedRow, Bool.false_eq_true, if_neg]
      simp [hp, isMalformedRow]

theorem foldl_insertCourse_tree (cs : List Course) (p : Planner) :
    (cs.foldl insertCourse p).tree = cs.foldl CourseBST.insertOrAssign p.tree := by
  induction cs generalizing p with
  | nil => rfl
  | cons c rest ih => simp [List.foldl_cons, insertCourse, ih]

theorem foldl_insertCourse_index (cs : List Course) (p : Planner) :
    (cs.foldl insertCourse p).index =
      cs.foldl (fun idx c => indexInsert idx c.number c.title) p.index := by
  induction cs generalizing p with
  | nil => rfl
  | cons c rest ih => simp [List.foldl_cons, insertCourse, ih]

theorem foldl_insertCourse_loaded (cs : List Course) (p : Planner) :
    (cs.foldl insertCourse p).loaded = p.loaded := by
  induction cs generalizing p with
  | nil => rfl
  | cons c rest ih => simp [List.foldl_cons, insertCourse, ih]

/-! ### `loadFromFile` characterisations -/

theorem load_none (p : Planner) (fn : String) :
    loadFromFile p fn none = ⟨p, .couldNotOpen, []⟩ := rfl

theorem load_tree (p : Planner) (fn : String) (lines : List String) :
    (loadFromFile p fn (some lines)).planner.tree =
      (coursesOf lines).foldl CourseBST.insertOrAssign CourseBST.leaf := by
  unfold loadFromFile
  dsimp only
  split_ifs <;>
    · rw [foldl_stepRow_planner, foldl_insertCourse_tree]

theorem load_index (p : Planner) (fn : String) (lines : List String) :
    (loadFromFile p fn (some lines)).planner.index =
      (coursesOf lines).foldl (fun idx c => indexInsert idx c.number c.title) [] := by
  unfold loadFromFile
  dsimp only
  split_ifs <;>
    · rw [foldl_stepRow_planner, foldl_insertCourse_index]

theorem load_result (p : Planner) (fn : String) (lines : List String) :
    (loadFromFile p fn (some lines)).result =
      (if lines.countP isCourseRow = 0 then .noValidRecords
       else .ok (lines.countP isCourseRow) (lines.countP isMalformedRow)) := by
  unfold loadFromFile
  dsimp only
  rw [foldl_stepRow_loadedCount, foldl_stepRow_skippedCount]
  simp only [Nat.zero_add]
  split_ifs <;> rfl

theorem load_loaded (p : Planner) (fn : String) (lines : List String) :
    (loadFromFile p fn (some lines)).planner.loaded =
      (if lines.countP isCourseRow = 0 then p.loaded else true) := by
  unfold loadFromFile
  dsimp only
  rw [foldl_stepRow_loadedCount]
  simp only [Nat.zero_add]
  split_ifs with h
  · rw [foldl_stepRow_planner, foldl_insertCourse_loaded]
  · rfl

theorem load_warnings (p : Planner) (fn : String) (lines : List String) :
    (loadFromFile p fn (some lines)).warnings =
      (lines.enum.filter (fun q => isMalformedRow q.2)).map (fun q => q.1 + 1) := by
  unfold loadFromFile
  dsimp only
  split_ifs <;>
    · rw [foldl_stepRow_warnings]
      simp [List.enum]

theorem load_isOk (p : Planner) (fn : String) (file : Option (List String)) :
    (loadFromFile p fn file).result.isOk = true ↔
      ∃ lines, file = some lines ∧ lines.countP isCourseRow ≠ 0 := by
  rcases file with _ | lines
  · simp [load_none, LoadResult.isOk]
  · rw [load_result]
    constructor
    · intro h
      refine ⟨lines, rfl, ?_⟩
      intro hc
      rw [if_pos hc] at h
      simp [LoadResult.isOk] at h
    · rintro ⟨lines', he, hc⟩
      obtain rfl : lines' = lines := by
        injection he with he'
        exact he'.symm
      rw [if_neg hc]
      rfl

theorem load_loaded_of_isOk {p : Planner} {fn : String} {file : Option (List String)}
    (h : (loadFromFile p fn file).result.isOk = true) :
    (loadFromFile p fn file).planner.loaded = true := by
  rcases (load_isOk p fn file).mp h with ⟨lines, rfl, hc⟩
  rw [load_loaded, if_neg hc]

/-! ### Folding inserts over the tree -/

instance : IsIrrefl String strLt := ⟨fun a => strLt_irrefl a⟩

theorem BSTInv.foldl_insertOrAssign (cs : List Course) {t : CourseBST} (h : BSTInv t) :
    BSTInv (cs.foldl CourseBST.insertOrAssign t) := by
  induction cs generalizing t with
  | nil => exact h
  | cons c rest ih => exact ih (h.insertOrAssign c)

theorem CourseBST.find_foldl_of_ne (cs : List Course) (t : CourseBST) {k : String}
    (h : ∀ c ∈ cs, c.number ≠ k) :
    (cs.foldl CourseBST.insertOrAssign t).find k = t.find k := by
  induction cs generalizing t with
  | nil => rfl
  | cons c rest ih =>
    rw [List.foldl_cons, ih _ (fun c' hc' => h c' (List.mem_cons_of_mem c hc')),
      CourseBST.find_insertOrAssign_ne]
    intro he
    exact h c (List.mem_cons_self c rest) he.symm

theorem CourseBST.isSome_find_foldl (cs : List Course) (t : CourseBST) (k : String) :
    ((cs.foldl CourseBST.insertOrAssign t).find k).isSome = true ↔
      (t.find k).isSome = true ∨ k ∈ cs.map Course.number := by
  induction cs generalizing t with
  | nil => simp
  | cons c rest ih =>
    rw [List.foldl_cons, ih]
    by_cases hk : k = c.number
    · subst hk
      simp only [List.map_cons, List.mem_cons, true_or, or_true, iff_true]
      by_cases hmem : c.number ∈ rest.map Course.number
      · exact Or.inr hmem
      · refine Or.inl ?_
        rw [CourseBST.find_insertOrAssign_self]
        rfl
    · rw [CourseBST.find_insertOrAssign_ne t c hk]
      simp only [List.map_cons, List.mem_cons]
      constructor
      · rintro (h | h)
        · exact Or.inl h
        · exact Or.inr (Or.inr h)
      · rintro (h | h | h)
        · exact Or.inl h
        · exact absurd h hk
        · exact Or.inr h

theorem CourseBST.size_foldl_le (cs : List Course) (t : CourseBST) :
    (cs.foldl CourseBST.insertOrAssign t).size ≤ t.size + cs.length := by
  induction cs generalizing t with
  | nil => simp
  | cons c rest ih =>
    rw [List.foldl_cons]
    calc (rest.foldl CourseBST.insertOrAssign (t.insertOrAssign c)).size
        ≤ (t.insertOrAssign c).size + rest.length := ih _
      _ ≤ (t.size + 1) + rest.length := by
          have := CourseBST.size_insertOrAssign_le t c
          omega
      _ = t.size + (c :: rest).length := by simp; omega

theorem CourseBST.size_foldl_of_nodup (cs : List Course) (t : CourseBST)
    (hnd : (cs.map Course.number).Nodup)
    (hfresh : ∀ c ∈ cs, t.find c.number = none) :
    (cs.foldl CourseBST.insertOrAssign t).size = t.size + cs.length := by
  induction cs generalizing t with
  | nil => simp
  | cons c rest ih =>
    rw [List.foldl_cons]
    rw [List.map_cons, List.nodup_cons] at hnd
    have hstep : (t.insertOrAssign c).size = t.size + 1 :=
      CourseBST.size_insertOrAssign_of_new (hfresh c (List.mem_cons_self c rest))
    have hfresh' : ∀ c' ∈ rest, (t.insertOrAssign c).find c'.number = none := by
      intro c' hc'
      have hne : c'.number ≠ c.number := by
        intro he
        exact hnd.1 (he ▸ List.mem_map_of_mem Course.number hc')
      rw [CourseBST.find_insertOrAssign_ne t c hne]
      exact hfresh c' (List.mem_cons_of_mem c hc')
    rw [ih _ hnd.2 hfresh', hstep, List.length_cons]
    omega

theorem CourseBST.size_foldl_of_clash (cs : List Course) (t : CourseBST)
    (h : ∃ c ∈ cs, (t.find c.number).isSome = true) :
    (cs.foldl CourseBST.insertOrAssign t).size < t.size + cs.length := by
  induction cs generalizing t with
  | nil => simp at h
  | cons c rest ih =>
    rw [List.foldl_cons]
    obtain ⟨c0, hc0, hsome⟩ := h
    rcases List.mem_cons.mp hc0 with rfl | hc0
    · have hstep : (t.insertOrAssign c0).size = t.size := 
        CourseBST.size_insertOrAssign_of_found hsome
      have := CourseBST.size_foldl_le rest (t.insertOrAssign c0)
      rw [hstep] at this
      simp only [List.length_cons]
      omega
    · have hsome' : ((t.insertOrAssign c).find c0.number).isSome = true := by
        by_cases hk : c0.number = c.number
        · rw [hk, CourseBST.find_insertOrAssign_self]
          rfl
        · rw [CourseBST.find_insertOrAssign_ne t c hk]
          exact hsome
      have := ih (t.insertOrAssign c) ⟨c0, hc0, hsome'⟩
      have hle := CourseBST.size_insertOrAssign_le t c
      simp only [List.length_cons]
      omega

theorem CourseBST.size_foldl_of_dup (cs : List Course) (t : CourseBST)
    (h : ¬ (cs.map Course.number).Nodup) :
    (cs.foldl CourseBST.insertOrAssign t).size < t.size + cs.length := by
  induction cs generalizing t with
  | nil => simp at h
  | cons c rest ih =>
    rw [List.map_cons, List.nodup_cons] at h
    rw [List.foldl_cons]
    by_cases hmem : c.number ∈ rest.map Course.number
    · obtain ⟨c0, hc0, he⟩ := List.mem_map.mp hmem
      have hsome : ((t.insertOrAssign c).find c0.number).isSome = true := by
        rw [he, CourseBST.find_insertOrAssign_self]
        rfl
      have := CourseBST.size_foldl_of_clash rest (t.insertOrAssign c) ⟨c0, hc0, hsome⟩
      have hle := CourseBST.size_insertOrAssign_le t c
      simp only [List.length_cons]
      omega
    · have hnd : ¬ (rest.map Course.number).Nodup := by
        intro hnd
        exact h ⟨hmem, hnd⟩
      have := ih (t.insertOrAssign c) hnd
      have hle := CourseBST.size_insertOrAssign_le t c
      simp only [List.length_cons]
      omega

/-! ### Index / tree agreement, and row counting -/

theorem indexFind_foldl_agrees (cs : List Course) (t : CourseBST)
    (idx : List (String × String))
    (h : ∀ k, indexFind idx k = (t.find k).map Course.title) :
    ∀ k, indexFind (cs.foldl (fun i c => indexInsert i c.number c.title) idx) k =
      ((cs.foldl CourseBST.insertOrAssign t).find k).map Course.title := by
  induction cs generalizing t idx with
  | nil => exact h
  | cons c rest ih =>
    rw [List.foldl_cons, List.foldl_cons]
    apply ih
    intro k
    by_cases hk : k = c.number
    · subst hk
      rw [indexFind_indexInsert_self, CourseBST.find_insertOrAssign_self]
      rfl
    · rw [indexFind_indexInsert_ne _ _ hk, CourseBST.find_insertOrAssign_ne t c hk, h]

theorem countP_rows_partition (lines : List String) :
    lines.countP isMalformedRow + lines.countP isCourseRow + lines.countP isBlankRow
      = lines.length := by
  induction lines with
  | nil => rfl
  | cons l rest ih =>
    simp only [List.countP_cons, List.length_cons]
    rcases hp : parseRow l with _ | _ | c <;>
      simp [isMalformedRow, isCourseRow, isBlankRow, hp] <;> omega

theorem coursesOf_eq_nil (lines : List String) (h : lines.countP isCourseRow = 0) :
    coursesOf lines = [] := by
  rw [List.countP_eq_zero] at h
  rw [coursesOf, List.filterMap_eq_nil]
  intro l hl
  have hc := h l hl
  rw [courseOf]
  rcases hp : parseRow l with _ | _ | c
  · rfl
  · rfl
  · rw [isCourseRow, hp] at hc
    simp at hc

theorem coursesOf_length (lines : List String) :
    (coursesOf lines).length = lines.countP isCourseRow := by
  induction lines with
  | nil => rfl
  | cons l rest ih =>
    rw [coursesOf_cons, List.countP_cons]
    rcases hp : parseRow l with _ | _ | c <;> simp [isCourseRow, hp, ih]

theorem CourseBST.keys_def (t : CourseBST) : t.keys = t.inorder.map Course.number := rfl

/-! ## The claims -/

/-- C1: for every sequence of rows, after a successful load the in-order
traversal consumed by `printCourseList` visits the stored courses in strictly
ascending lexicographic order of the normalized course number (hence no two
visited entries share a key), a course is visited exactly when it is stored
(found by `find` under its key), and each stored course is visited exactly
once. -/
theorem C1_inorder_sorted_unique (p : Planner) (fn : String) (file : Option (List String))
    (hok : (loadFromFile p fn file).result.isOk = true) :
    (loadFromFile p fn file).planner.tree.keys.Pairwise strLt ∧
    (∀ c : Course, c ∈ (loadFromFile p fn file).planner.tree.inorder ↔
        (loadFromFile p fn file).planner.tree.find c.number = some c) ∧
    (∀ c ∈ (loadFromFile p fn file).planner.tree.inorder,
        List.count c (loadFromFile p fn file).planner.tree.inorder = 1) := by
  obtain ⟨lines, rfl, -⟩ := (load_isOk p fn file).mp hok
  have hinv : BSTInv (loadFromFile p fn (some lines)).planner.tree := by
    rw [load_tree]
    exact BSTInv.foldl_insertOrAssign _ BSTInv.leaf
  refine ⟨hinv.keys_pairwise, ?_, ?_⟩
  · intro c
    constructor
    · intro h
      exact hinv.find_of_mem h
    · intro h
      exact (CourseBST.find_eq_some h).1
  · intro c hc
    have hnd : (loadFromFile p fn (some lines)).planner.tree.keys.Nodup :=
      hinv.keys_pairwise.nodup
    rw [CourseBST.keys_def] at hnd
    exact List.count_eq_one_of_mem (List.Nodup.of_map Course.number hnd) hc

/-- Witness for C1: a concrete successful load (rows out of order, mixed
case) on which the conclusion is obtained from `C1_inorder_sorted_unique`. -/
theorem C1_witness :
    (loadFromFile initPlanner "courses.csv"
        (some ["CSCI300,Algorithms", "CSCI100,Intro", "csci200,Data,CSCI100"])).result.isOk
      = true ∧
    ((loadFromFile initPlanner "courses.csv"
        (some ["CSCI300,Algorithms", "CSCI100,Intro", "csci200,Data,CSCI100"])).planner.tree.keys.Pairwise
        strLt ∧
     (∀ c : Course, c ∈ (loadFromFile initPlanner "courses.csv"
        (some ["CSCI300,Algorithms", "CSCI100,Intro", "csci200,Data,CSCI100"])).planner.tree.inorder ↔
        (loadFromFile initPlanner "courses.csv"
        (some ["CSCI300,Algorithms", "CSCI100,Intro", "csci200,Data,CSCI100"])).planner.tree.find
          c.number = some c) ∧
     (∀ c ∈ (loadFromFile initPlanner "courses.csv"
        (some ["CSCI300,Algorithms", "CSCI100,Intro", "csci200,Data,CSCI100"])).planner.tree.inorder,
        List.count c (loadFromFile initPlanner "courses.csv"
        (some ["CSCI300,Algorithms", "CSCI100,Intro", "csci200,Data,CSCI100"])).planner.tree.inorder
          = 1)) :=
  ⟨by decide, C1_inorder_sorted_unique initPlanner "courses.csv"
      (some ["CSCI300,Algorithms", "CSCI100,Intro", "csci200,Data,CSCI100"]) (by decide)⟩

/-- C2 counterexample: a load that fails because the source cannot be opened
does NOT destroy previously loaded state — the open check precedes the
clearing of the store and index, so the claim is false for that failure mode.
After a successful load of `CSCI100`, a failed open leaves the planner
unchanged and `CSCI100` still stored and indexed. -/
theorem C2_counterexample :
    (loadFromFile (loadFromFile initPlanner "a.csv" (some ["CSCI100,Intro"])).planner
        "missing.csv" none).result = .couldNotOpen ∧
    (loadFromFile (loadFromFile initPlanner "a.csv" (some ["CSCI100,Intro"])).planner
        "missing.csv" none).planner
      = (loadFromFile initPlanner "a.csv" (some ["CSCI100,Intro"])).planner ∧
    (loadFromFile (loadFromFile initPlanner "a.csv" (some ["CSCI100,Intro"])).planner
        "missing.csv" none).planner.tree.find "CSCI100"
      = some ⟨"CSCI100", "Intro", []⟩ ∧
    indexFind (loadFromFile (loadFromFile initPlanner "a.csv" (some ["CSCI100,Intro"])).planner
        "missing.csv" none).planner.index "CSCI100" = some "Intro" := by
  refine ⟨rfl, rfl, by decide, by decide⟩

/-- C2 (amended): only a load that fails after the source was opened (zero
valid rows) destroys previously loaded store and index contents; a load that
fails because the source cannot be opened returns before the clear and leaves
the prior planner state fully intact. -/
theorem C2_amended_clear_semantics (p : Planner) (fn : String) (lines : List String)
    (h : (loadFromFile p fn (some lines)).result = .noValidRecords) :
    (loadFromFile p fn none).planner = p ∧
    (loadFromFile p fn none).result = .couldNotOpen ∧
    (loadFromFile p fn (some lines)).planner.tree = .leaf ∧
    (loadFromFile p fn (some lines)).planner.index = [] := by
  refine ⟨rfl, rfl, ?_⟩
  rw [load_result] at h
  by_cases hc : lines.countP isCourseRow = 0
  · have hnil := coursesOf_eq_nil lines hc
    rw [load_tree, load_index, hnil]
    exact ⟨rfl, rfl⟩
  · rw [if_neg hc] at h
    exact LoadResult.noConfusion h

/-- Witness for C2 (amended): a concrete no-valid-records load. -/
theorem C2_witness :
    (loadFromFile initPlanner "b.csv" (some ["onlyonefield"])).result = .noValidRecords ∧
    ((loadFromFile initPlanner "b.csv" none).planner = initPlanner ∧
     (loadFromFile initPlanner "b.csv" none).result = .couldNotOpen ∧
     (loadFromFile initPlanner "b.csv" (some ["onlyonefield"])).planner.tree = .leaf ∧
     (loadFromFile initPlanner "b.csv" (some ["onlyonefield"])).planner.index = []) :=
  ⟨by decide, C2_amended_clear_semantics initPlanner "b.csv" ["onlyonefield"] (by decide)⟩

/-- C3 counterexample: after a successful load, a later load that parses zero
valid rows fails with `noValidRecords` but does NOT leave the catalog in the
Unloaded state — `loaded_` is never reset, so `printCourseList` reports an
empty list instead of not-loaded. -/
theorem C3_counterexample :
    (loadFromFile (loadFromFile initPlanner "a.csv" (some ["CSCI100,Intro"])).planner
        "b.csv" (some [" "])).result = .noValidRecords ∧
    (loadFromFile (loadFromFile initPlanner "a.csv" (some ["CSCI100,Intro"])).planner
        "b.csv" (some [" "])).planner.loaded = true ∧
    printCourseList (loadFromFile (loadFromFile initPlanner "a.csv"
        (some ["CSCI100,Intro"])).planner "b.csv" (some [" "])).planner = .ok [] 0 ∧
    printCourseList (loadFromFile (loadFromFile initPlanner "a.csv"
        (some ["CSCI100,Intro"])).planner "b.csv" (some [" "])).planner ≠ .notLoaded := by
  refine ⟨by decide, by decide, by decide, by decide⟩

/-- C3 (amended): a load whose rows contain zero valid course rows fails with
the no-valid-records error and leaves the store and index empty, but the
`loaded_` flag is unchanged: the catalog reports not-loaded afterwards only if
no load had ever succeeded; after a prior successful load it stays `Loaded`
(an empty list is reported instead). -/
theorem C3_amended_no_valid_records (p : Planner) (fn : String) (lines : List String)
    (h : lines.countP isCourseRow = 0) :
    (loadFromFile p fn (some lines)).result = .noValidRecords ∧
    (loadFromFile p fn (some lines)).planner.tree = .leaf ∧
    (loadFromFile p fn (some lines)).planner.index = [] ∧
    (loadFromFile p fn (some lines)).planner.loaded = p.loaded ∧
    (p.loaded = false →
      printCourseList (loadFromFile p fn (some lines)).planner = .notLoaded ∧
      ∀ q, printCourseInfo (loadFromFile p fn (some lines)).planner q = .notLoaded) := by
  have hres : (loadFromFile p fn (some lines)).result = .noValidRecords := by
    rw [load_result, if_pos h]
  have hld : (loadFromFile p fn (some lines)).planner.loaded = p.loaded := by
    rw [load_loaded, if_pos h]
  refine ⟨hres, ?_, ?_, hld, ?_⟩
  · rw [load_tree, coursesOf_eq_nil lines h]
    rfl
  · rw [load_index, coursesOf_eq_nil lines h]
    rfl
  · intro hpl
    have hld' : (loadFromFile p fn (some lines)).planner.loaded = false := by
      rw [hld, hpl]
    constructor
    · rw [printCourseList, if_pos hld']
    · intro q
      rw [printCourseInfo, if_pos hld']

/-- Witness for C3 (amended): a load of one blank and one malformed line,
starting from the freshly constructed planner. -/
theorem C3_witness :
    (["   ", "X1"].countP isCourseRow = 0) ∧
    ((loadFromFile initPlanner "b.csv" (some ["   ", "X1"])).result = .noValidRecords ∧
     (loadFromFile initPlanner "b.csv" (some ["   ", "X1"])).planner.tree = .leaf ∧
     (loadFromFile initPlanner "b.csv" (some ["   ", "X1"])).planner.index = [] ∧
     (loadFromFile initPlanner "b.csv" (some ["   ", "X1"])).planner.loaded
        = initPlanner.loaded ∧
     (initPlanner.loaded = false →
       printCourseList (loadFromFile initPlanner "b.csv" (some ["   ", "X1"])).planner
          = .notLoaded ∧
       ∀ q, printCourseInfo (loadFromFile initPlanner "b.csv" (some ["   ", "X1"])).planner q
          = .notLoaded)) :=
  ⟨by decide, C3_amended_no_valid_records initPlanner "b.csv" ["   ", "X1"] (by decide)⟩

/-- C4: when several rows of one load carry the same normalized course number,
the stored course at that key after the load is the one parsed from the last
such row (its title and prereqs), the key itself is that normalized number,
and the store holds exactly one entry for the key.  `row` is the last row of
the load whose parsed key equals `c.number`. -/
theorem C4_last_row_wins (p : Planner) (fn : String) (pre post : List String)
    (row : String) (c : Course)
    (hrow : parseRow row = .course c)
    (hlater : ∀ l ∈ post, ∀ c', parseRow l = .course c' → c'.number ≠ c.number) :
    (loadFromFile p fn (some (pre ++ row :: post))).planner.tree.find c.number = some c ∧
    List.count c.number (loadFromFile p fn (some (pre ++ row :: post))).planner.tree.keys
      = 1 := by
  have hcr : courseOf row = some c := by rw [courseOf, hrow]
  have hcs : coursesOf (pre ++ row :: post) = coursesOf pre ++ c :: coursesOf post := by
    rw [coursesOf, List.filterMap_append, List.filterMap_cons, hcr]
    rfl
  have hinv : BSTInv (loadFromFile p fn (some (pre ++ row :: post))).planner.tree := by
    rw [load_tree]
    exact BSTInv.foldl_insertOrAssign _ BSTInv.leaf
  have hne : ∀ c' ∈ coursesOf post, c'.number ≠ c.number := by
    intro c' hc'
    obtain ⟨l, hl, hcl⟩ := List.mem_filterMap.mp hc'
    rw [courseOf] at hcl
    rcases hp : parseRow l with _ | _ | d
    · rw [hp] at hcl
      exact absurd hcl (by simp)
    · rw [hp] at hcl
      exact absurd hcl (by simp)
    · rw [hp] at hcl
      have hd : d = c' := by injection hcl
      rw [← hd]
      exact hlater l hl d hp
  have hfind : (loadFromFile p fn (some (pre ++ row :: post))).planner.tree.find c.number
      = some c := by
    rw [load_tree, hcs, List.foldl_append, List.foldl_cons,
      CourseBST.find_foldl_of_ne _ _ hne, CourseBST.find_insertOrAssign_self]
  refine ⟨hfind, ?_⟩
  have hnd : (loadFromFile p fn (some (pre ++ row :: post))).planner.tree.keys.Nodup :=
    hinv.keys_pairwise.nodup
  have hmem : c.number ∈ (loadFromFile p fn (some (pre ++ row :: post))).planner.tree.keys := by
    rw [CourseBST.keys_def]
    exact List.mem_map_of_mem Course.number (CourseBST.find_eq_some hfind).1
  exact List.count_eq_one_of_mem hnd hmem

/-- Witness for C4: `csci100,NewTitle,MATH100` is the last row keyed
`CSCI100`, overriding the earlier `CSCI100,Intro`. -/
theorem C4_witness :
    parseRow "csci100,NewTitle,MATH100"
        = RowParse.course ⟨"CSCI100", "NewTitle", ["MATH100"]⟩ ∧
    ((loadFromFile initPlanner "c.csv"
        (some (["CSCI100,Intro", "CSCI200,Data"] ++ "csci100,NewTitle,MATH100" :: []))).planner.tree.find
        "CSCI100" = some ⟨"CSCI100", "NewTitle", ["MATH100"]⟩ ∧
     List.count "CSCI100" (loadFromFile initPlanner "c.csv"
        (some (["CSCI100,Intro", "CSCI200,Data"] ++ "csci100,NewTitle,MATH100" :: []))).planner.tree.keys
        = 1) :=
  ⟨by decide,
   C4_last_row_wins initPlanner "c.csv" ["CSCI100,Intro", "CSCI200,Data"] []
     "csci100,NewTitle,MATH100" ⟨"CSCI100", "NewTitle", ["MATH100"]⟩ (by decide)
     (fun l hl => absurd hl (List.not_mem_nil l))⟩

/-! ### Lookup helpers -/

theorem BSTInv.find_of_mem_keys {t : CourseBST} (h : BSTInv t) {k : String}
    (hk : k ∈ t.keys) : ∃ c, t.find k = some c ∧ c.number = k := by
  rw [CourseBST.keys_def] at hk
  obtain ⟨c, hc, rfl⟩ := List.mem_map.mp hk
  exact ⟨c, h.find_of_mem hc, rfl⟩

theorem CourseBST.find_eq_none_of_not_mem_keys {t : CourseBST} {k : String}
    (hk : k ∉ t.keys) : t.find k = none := by
  rcases hf : t.find k with _ | c
  · rfl
  · obtain ⟨hm, he⟩ := CourseBST.find_eq_some hf
    rw [CourseBST.keys_def] at hk
    exact absurd (he ▸ List.mem_map_of_mem Course.number hm) hk

theorem resolveLine_num (idx : List (String × String)) (n : String) :
    (resolveLine idx n).num = n := by
  rw [resolveLine]
  rcases indexFind idx n with _ | t <;> rfl

/-- C5 counterexample: with a course loaded, the query `"  "` normalizes to
the empty string, which matches no loaded course number, yet `printCourseInfo`
returns `emptyQueryKey` rather than the `notFound` outcome the claim
promises. -/
theorem C5_counterexample :
    (loadFromFile initPlanner "c.csv" (some ["CSCI100,Intro"])).result.isOk = true ∧
    toUpperStr (trimCopy "  ") = "" ∧
    (loadFromFile initPlanner "c.csv" (some ["CSCI100,Intro"])).planner.tree.keys
      = ["CSCI100"] ∧
    printCourseInfo (loadFromFile initPlanner "c.csv" (some ["CSCI100,Intro"])).planner "  "
      = .emptyQueryKey ∧
    printCourseInfo (loadFromFile initPlanner "c.csv" (some ["CSCI100,Intro"])).planner "  "
      ≠ .notFound (toUpperStr (trimCopy "  ")) := by
  refine ⟨by decide, by decide, by decide, by decide, by decide⟩

/-- C5 (amended): after a successful load, describe depends only on the
normalized (trimmed, uppercased) form of the query — so lookup is
case-insensitive.  A query whose nonempty normalized form matches no stored
key yields `notFound`; one whose nonempty normalized form matches a stored
key succeeds with the stored course; a query normalizing to the empty string
instead yields `emptyQueryKey`. -/
theorem C5_amended_lookup (p : Planner) (fn : String) (file : Option (List String))
    (q : String) (hok : (loadFromFile p fn file).result.isOk = true) :
    (∀ q', toUpperStr (trimCopy q') = toUpperStr (trimCopy q) →
       printCourseInfo (loadFromFile p fn file).planner q'
         = printCourseInfo (loadFromFile p fn file).planner q) ∧
    (toUpperStr (trimCopy q) = "" →
       printCourseInfo (loadFromFile p fn file).planner q = .emptyQueryKey) ∧
    (toUpperStr (trimCopy q) ≠ "" →
       toUpperStr (trimCopy q) ∉ (loadFromFile p fn file).planner.tree.keys →
       printCourseInfo (loadFromFile p fn file).planner q
         = .notFound (toUpperStr (trimCopy q))) ∧
    (toUpperStr (trimCopy q) ≠ "" →
       toUpperStr (trimCopy q) ∈ (loadFromFile p fn file).planner.tree.keys →
       ∃ c pr,
         (loadFromFile p fn file).planner.tree.find (toUpperStr (trimCopy q)) = some c ∧
         c.number = toUpperStr (trimCopy q) ∧
         printCourseInfo (loadFromFile p fn file).planner q
           = .found c.number c.title pr) := by
  have hld := load_loaded_of_isOk hok
  have hinv : BSTInv (loadFromFile p fn file).planner.tree := by
    obtain ⟨lines, rfl, -⟩ := (load_isOk p fn file).mp hok
    rw [load_tree]
    exact BSTInv.foldl_insertOrAssign _ BSTInv.leaf
  refine ⟨?_, ?_, ?_, ?_⟩
  · intro q' hq'
    simp only [printCourseInfo, hld, hq']
  · intro hq
    simp [printCourseInfo, hld, hq]
  · intro hq hmem
    have hfn := CourseBST.find_eq_none_of_not_mem_keys hmem
    simp [printCourseInfo, hld, hq, hfn]
  · intro hq hmem
    obtain ⟨c, hfc, hcn⟩ := hinv.find_of_mem_keys hmem
    by_cases hp0 : c.prereqs = []
    · exact ⟨c, none, hfc, hcn, by simp [printCourseInfo, hld, hq, hfc, hp0]⟩
    · exact ⟨c, some (c.prereqs.map (resolveLine (loadFromFile p fn file).planner.index)),
        hfc, hcn, by simp [printCourseInfo, hld, hq, hfc, hp0]⟩

/-- Witness for C5 (amended), at a concrete load and the query `" csci100 "`. -/
theorem C5_witness :
    (loadFromFile initPlanner "c.csv" (some ["CSCI100,Intro"])).result.isOk = true ∧
    ((∀ q', toUpperStr (trimCopy q') = toUpperStr (trimCopy " csci100 ") →
       printCourseInfo (loadFromFile initPlanner "c.csv" (some ["CSCI100,Intro"])).planner q'
         = printCourseInfo (loadFromFile initPlanner "c.csv"
             (some ["CSCI100,Intro"])).planner " csci100 ") ∧
     (toUpperStr (trimCopy " csci100 ") = "" →
       printCourseInfo (loadFromFile initPlanner "c.csv"
           (some ["CSCI100,Intro"])).planner " csci100 " = .emptyQueryKey) ∧
     (toUpperStr (trimCopy " csci100 ") ≠ "" →
       toUpperStr (trimCopy " csci100 ")
           ∉ (loadFromFile initPlanner "c.csv" (some ["CSCI100,Intro"])).planner.tree.keys →
       printCourseInfo (loadFromFile initPlanner "c.csv"
           (some ["CSCI100,Intro"])).planner " csci100 "
         = .notFound (toUpperStr (trimCopy " csci100 "))) ∧
     (toUpperStr (trimCopy " csci100 ") ≠ "" →
       toUpperStr (trimCopy " csci100 ")
           ∈ (loadFromFile initPlanner "c.csv" (some ["CSCI100,Intro"])).planner.tree.keys →
       ∃ c pr,
         (loadFromFile initPlanner "c.csv" (some ["CSCI100,Intro"])).planner.tree.find
             (toUpperStr (trimCopy " csci100 ")) = some c ∧
         c.number = toUpperStr (trimCopy " csci100 ") ∧
         printCourseInfo (loadFromFile initPlanner "c.csv"
             (some ["CSCI100,Intro"])).planner " csci100 "
           = .found c.number c.title pr)) :=
  ⟨by decide,
   C5_amended_lookup initPlanner "c.csv" (some ["CSCI100,Intro"]) " csci100 " (by decide)⟩

/-- C6: describe on a stored course never fails on account of its
prerequisites: it returns `found` with the course's number and title; the
prerequisite lines are reported in stored order, each resolved to its title
through the secondary index when present and marked unresolved when absent;
and a course with zero prerequisites is reported explicitly with the distinct
`none` marker. -/
theorem C6_describe_prereqs (p : Planner) (q : String) (c : Course)
    (hld : p.loaded = true)
    (hq : toUpperStr (trimCopy q) ≠ "")
    (hf : p.tree.find (toUpperStr (trimCopy q)) = some c) :
    ∃ pr, printCourseInfo p q = .found c.number c.title pr ∧
      (pr = none ↔ c.prereqs = []) ∧
      ∀ ls, pr = some ls →
        (ls.map PrereqLine.num = c.prereqs ∧
         ∀ pl ∈ ls,
           (∃ t, indexFind p.index ( pl.num) = some t ∧ pl = .resolved ( pl.num) t) ∨
           (indexFind p.index ( pl.num) = none ∧ pl = .unresolved ( pl.num))) := by
  by_cases hp0 : c.prereqs = []
  · refine ⟨none, ?_, by simp [hp0], ?_⟩
    · simp [printCourseInfo, hld, hq, hf, hp0]
    · intro ls h
      exact Option.noConfusion h
  · refine ⟨some (c.prereqs.map (resolveLine p.index)), ?_, by simp [hp0], ?_⟩
    · simp [printCourseInfo, hld, hq, hf, hp0]
    · intro ls hls
      obtain rfl : c.prereqs.map (resolveLine p.index) = ls := by injection hls
      constructor
      · rw [List.map_map]
        have : PrereqLine.num ∘ resolveLine p.index = id := by
          funext n
          exact resolveLine_num p.index n
        rw [this, List.map_id]
      · intro pl hpl
        obtain ⟨n, hn, rfl⟩ := List.mem_map.mp hpl
        rw [resolveLine_num]
        rcases hidx : indexFind p.index n with _ | t
        · right
          exact ⟨rfl, by rw [resolveLine, hidx]⟩
        · left
          exact ⟨t, rfl, by rw [resolveLine, hidx]⟩

/-- Witness for C6: describing `csci200`, whose stored prereqs are one
resolvable (`CSCI100`) and one unresolved (`MATH900`) number. -/
theorem C6_witness :
    (loadFromFile initPlanner "c.csv"
        (some ["CSCI100,Intro", "CSCI200,Data,CSCI100,MATH900"])).planner.loaded = true ∧
    toUpperStr (trimCopy "csci200") ≠ "" ∧
    (loadFromFile initPlanner "c.csv"
        (some ["CSCI100,Intro", "CSCI200,Data,CSCI100,MATH900"])).planner.tree.find
        (toUpperStr (trimCopy "csci200"))
      = some ⟨"CSCI200", "Data", ["CSCI100", "MATH900"]⟩ ∧
    (∃ pr, printCourseInfo (loadFromFile initPlanner "c.csv"
        (some ["CSCI100,Intro", "CSCI200,Data,CSCI100,MATH900"])).planner "csci200"
          = .found (Course.mk "CSCI200" "Data" ["CSCI100", "MATH900"]).number
              (Course.mk "CSCI200" "Data" ["CSCI100", "MATH900"]).title pr ∧
      (pr = none ↔ (Course.mk "CSCI200" "Data" ["CSCI100", "MATH900"]).prereqs = []) ∧
      ∀ ls, pr = some ls →
        (ls.map PrereqLine.num
            = (Course.mk "CSCI200" "Data" ["CSCI100", "MATH900"]).prereqs ∧
         ∀ pl ∈ ls,
           (∃ t, indexFind (loadFromFile initPlanner "c.csv"
               (some ["CSCI100,Intro", "CSCI200,Data,CSCI100,MATH900"])).planner.index
               ( pl.num) = some t ∧ pl = .resolved ( pl.num) t) ∨
           (indexFind (loadFromFile initPlanner "c.csv"
               (some ["CSCI100,Intro", "CSCI200,Data,CSCI100,MATH900"])).planner.index
               ( pl.num) = none ∧ pl = .unresolved ( pl.num)))) :=
  ⟨by decide, by decide, by decide,
   C6_describe_prereqs (loadFromFile initPlanner "c.csv"
       (some ["CSCI100,Intro", "CSCI200,Data,CSCI100,MATH900"])).planner "csci200"
     ⟨"CSCI200", "Data", ["CSCI100", "MATH900"]⟩ (by decide) (by decide) (by decide)⟩

/-- C7: on a query that normalizes to the empty string the not-loaded check
runs first: for the freshly constructed planner (and any unloaded planner)
describe fails with `notLoaded`, while after any successful load it fails
with `emptyQueryKey`. -/
theorem C7_check_order (q : String) (hq : toUpperStr (trimCopy q) = "") :
    initPlanner.loaded = false ∧
    (∀ p : Planner, p.loaded = false → printCourseInfo p q = .notLoaded) ∧
    (∀ (p : Planner) (fn : String) (file : Option (List String)),
        (loadFromFile p fn file).result.isOk = true →
        printCourseInfo (loadFromFile p fn file).planner q = .emptyQueryKey) := by
  refine ⟨rfl, ?_, ?_⟩
  · intro p hp
    rw [printCourseInfo, if_pos hp]
  · intro p fn file hok
    have hld := load_loaded_of_isOk hok
    simp [printCourseInfo, hld, hq]

/-- Witness for C7 at the query `"  "` and a concrete successful load. -/
theorem C7_witness :
    toUpperStr (trimCopy "  ") = "" ∧
    (initPlanner.loaded = false ∧
     (∀ p : Planner, p.loaded = false → printCourseInfo p "  " = .notLoaded) ∧
     (∀ (p : Planner) (fn : String) (file : Option (List String)),
        (loadFromFile p fn file).result.isOk = true →
        printCourseInfo (loadFromFile p fn file).planner "  " = .emptyQueryKey)) :=
  ⟨by decide, C7_check_order "  " (by decide)⟩

/-- C8: the warnings a load emits are exactly the 1-based positions of the
non-blank rows with fewer than two fields; on success the reported skipped
count is the number of such rows and the loaded count the number of valid
rows; blank, malformed and valid rows partition the input, so a blank row is
never counted as skipped (and never warned about) while processing always
continues to the next row. -/
theorem C8_skip_counting (p : Planner) (fn : String) (lines : List String) :
    (loadFromFile p fn (some lines)).warnings =
      (lines.enum.filter (fun e => isMalformedRow e.2)).map (fun e => e.1 + 1) ∧
    (∀ L S, (loadFromFile p fn (some lines)).result = .ok L S →
        S = lines.countP isMalformedRow ∧ L = lines.countP isCourseRow) ∧
    lines.countP isMalformedRow + lines.countP isCourseRow + lines.countP isBlankRow
      = lines.length := by
  refine ⟨load_warnings p fn lines, ?_, countP_rows_partition lines⟩
  intro L S h
  rw [load_result] at h
  by_cases hc : lines.countP isCourseRow = 0
  · rw [if_pos hc] at h
    exact LoadResult.noConfusion h
  · rw [if_neg hc] at h
    injection h with h1 h2
    exact ⟨h2.symm, h1.symm⟩

/-- Witness for C8: the malformed row `X1` at position 2 is warned about and
counted as skipped, the blank row at position 3 is silently ignored. -/
theorem C8_witness :
    (loadFromFile initPlanner "c.csv"
        (some ["CSCI100,Intro", "X1", "   ", "CSCI200,Data"])).result = .ok 2 1 ∧
    ((loadFromFile initPlanner "c.csv"
        (some ["CSCI100,Intro", "X1", "   ", "CSCI200,Data"])).warnings =
      ((["CSCI100,Intro", "X1", "   ", "CSCI200,Data"].enum.filter
          (fun e => isMalformedRow e.2)).map (fun e => e.1 + 1)) ∧
     (∀ L S, (loadFromFile initPlanner "c.csv"
        (some ["CSCI100,Intro", "X1", "   ", "CSCI200,Data"])).result = .ok L S →
        S = ["CSCI100,Intro", "X1", "   ", "CSCI200,Data"].countP isMalformedRow ∧
        L = ["CSCI100,Intro", "X1", "   ", "CSCI200,Data"].countP isCourseRow) ∧
     ["CSCI100,Intro", "X1", "   ", "CSCI200,Data"].countP isMalformedRow +
       ["CSCI100,Intro", "X1", "   ", "CSCI200,Data"].countP isCourseRow +
       ["CSCI100,Intro", "X1", "   ", "CSCI200,Data"].countP isBlankRow
       = ["CSCI100,Intro", "X1", "   ", "CSCI200,Data"].length) :=
  ⟨by decide,
   C8_skip_counting initPlanner "c.csv" ["CSCI100,Intro", "X1", "   ", "CSCI200,Data"]⟩

/-- C9: loading N well-formed rows yields a store of size N exactly when all
normalized course numbers are pairwise distinct, and of size strictly less
than N when at least two rows share a normalized number. -/
theorem C9_size_roundtrip (p : Planner) (fn : String) (lines : List String)
    (hwf : ∀ l ∈ lines, isCourseRow l = true) :
    (((coursesOf lines).map Course.number).Nodup →
        (loadFromFile p fn (some lines)).planner.tree.size = lines.length) ∧
    (¬ ((coursesOf lines).map Course.number).Nodup →
        (loadFromFile p fn (some lines)).planner.tree.size < lines.length) := by
  have hlen : (coursesOf lines).length = lines.length := by
    rw [coursesOf_length]
    exact List.countP_eq_length.mpr hwf
  constructor
  · intro hnd
    rw [load_tree,
      CourseBST.size_foldl_of_nodup (coursesOf lines) CourseBST.leaf hnd
        (fun c hc => rfl)]
    rw [CourseBST.size, Nat.zero_add, hlen]
  · intro hnd
    have hlt := CourseBST.size_foldl_of_dup (coursesOf lines) CourseBST.leaf hnd
    rw [load_tree]
    rw [CourseBST.size, Nat.zero_add, hlen] at hlt
    exact hlt

/-- Witness for C9: two well-formed rows with distinct keys (and, through the
same theorem, the duplicate-key bound). -/
theorem C9_witness :
    (∀ l ∈ ["CSCI100,Intro", "CSCI200,Data"], isCourseRow l = true) ∧
    (((coursesOf ["CSCI100,Intro", "CSCI200,Data"]).map Course.number).Nodup →
        (loadFromFile initPlanner "c.csv"
          (some ["CSCI100,Intro", "CSCI200,Data"])).planner.tree.size
          = ["CSCI100,Intro", "CSCI200,Data"].length) ∧
    (¬ ((coursesOf ["CSCI100,Intro", "CSCI200,Data"]).map Course.number).Nodup →
        (loadFromFile initPlanner "c.csv"
          (some ["CSCI100,Intro", "CSCI200,Data"])).planner.tree.size
          < ["CSCI100,Intro", "CSCI200,Data"].length) :=
  ⟨by decide,
   (C9_size_roundtrip initPlanner "c.csv" ["CSCI100,Intro", "CSCI200,Data"] (by decide)).1,
   (C9_size_roundtrip initPlanner "c.csv" ["CSCI100,Intro", "CSCI200,Data"] (by decide)).2⟩

/-- C10: after a successful load the secondary title index and the store agree
exactly: for every key, the index binds the key iff the store holds a course
under it, and then to exactly that course's title — so a prerequisite whose
number is a loaded course always resolves, to the current title. -/
theorem C10_index_agrees (p : Planner) (fn : String) (file : Option (List String))
    (hok : (loadFromFile p fn file).result.isOk = true) :
    ∀ k, indexFind (loadFromFile p fn file).planner.index k
        = Option.map Course.title ((loadFromFile p fn file).planner.tree.find k) := by
  obtain ⟨lines, rfl, -⟩ := (load_isOk p fn file).mp hok
  intro k
  rw [load_tree, load_index]
  exact indexFind_foldl_agrees (coursesOf lines) CourseBST.leaf [] (fun k' => rfl) k

/-- Witness for C10: a concrete successful load with a duplicate key (the
index follows the last write, like the store). -/
theorem C10_witness :
    (loadFromFile initPlanner "c.csv"
        (some ["CSCI100,Intro", "csci100,NewTitle", "CSCI200,Data,CSCI100"])).result.isOk
      = true ∧
    ∀ k, indexFind (loadFromFile initPlanner "c.csv"
        (some ["CSCI100,Intro", "csci100,NewTitle", "CSCI200,Data,CSCI100"])).planner.index k
      = Option.map Course.title ((loadFromFile initPlanner "c.csv"
        (some ["CSCI100,Intro", "csci100,NewTitle", "CSCI200,Data,CSCI100"])).planner.tree.find
          k) :=
  ⟨by decide,
   C10_index_agrees initPlanner "c.csv"
     (some ["CSCI100,Intro", "csci100,NewTitle", "CSCI200,Data,CSCI100"]) (by decide)⟩
